import Mathlib

/-!
Shallow embedding of `src/assistant.py`, a command-line contact manager:
validated fields (`Phone`, `Birthday`), `Record` with a phone list and
optional birthday, `AddressBook` keyed by name, the upcoming-birthdays
query with weekend shifting, and the `add`/`change` command handlers.

Python exceptions are modelled by `Except PyErr`; mutation of a record or
book is modelled by returning the new state next to the outcome, with the
old state returned unchanged when the Python code raises before mutating.
-/

/-- The Python exceptions the program raises or catches, with the message
`str(e)` would show (`input_error` dispatches on the exception class). -/
inductive PyErr where
  | valueError (msg : String)
  | keyError (msg : String)
  | indexError
  | attributeError (msg : String)
deriving DecidableEq, Repr

/-! ## Dates (`datetime.date` as used by the program) -/

/-- A proleptic-Gregorian calendar date, as `datetime.date` holds it. -/
structure Date where
  year : Nat
  month : Nat
  day : Nat
deriving DecidableEq, Repr

/-- Gregorian leap-year rule, as `calendar`/`datetime` use it. -/
def isLeap (y : Nat) : Bool :=
  (y % 4 == 0 && y % 100 != 0) || y % 400 == 0

/-- Length of month `m` of year `y` (`datetime`'s `days_in_month`). -/
def daysInMonth (y m : Nat) : Nat :=
  if m = 2 then (if isLeap y then 29 else 28)
  else if m = 4 ∨ m = 6 ∨ m = 9 ∨ m = 11 then 30
  else 31

/-- `datetime.date` comparison: lexicographic on (year, month, day). -/
def dateLT (a b : Date) : Bool :=
  decide (a.year < b.year ∨ (a.year = b.year ∧
    (a.month < b.month ∨ (a.month = b.month ∧ a.day < b.day))))

/-- `datetime.date` comparison `<=`. -/
def dateLE (a b : Date) : Bool :=
  dateLT a b || decide (a = b)

/-- Days in year `y` strictly before month `m` (months 1..m-1). -/
def daysBeforeMonth (y m : Nat) : Nat :=
  (List.range (m - 1)).foldl (fun acc i => acc + daysInMonth y (i + 1)) 0

/-- `datetime.date.toordinal`: day count with 0001-01-01 as day 1. -/
def toOrdinal (d : Date) : Nat :=
  let p := d.year - 1
  365 * p + p / 4 + p / 400 - p / 100 + daysBeforeMonth d.year d.month + d.day

/-- `datetime.date.weekday`: Monday = 0 .. Sunday = 6
(0001-01-01 is a Monday). -/
def weekday (d : Date) : Nat :=
  (toOrdinal d + 6) % 7

/-- The calendar successor of a date (used to realise `+ timedelta(days=n)`). -/
def nextDay (d : Date) : Date :=
  if d.day < daysInMonth d.year d.month then ⟨d.year, d.month, d.day + 1⟩
  else if d.month < 12 then ⟨d.year, d.month + 1, 1⟩
  else ⟨d.year + 1, 1, 1⟩

/-- `date + timedelta(days=n)` for a valid date. -/
def addDays (d : Date) : Nat → Date
  | 0 => d
  | n + 1 => addDays (nextDay d) n

/-- Zero-pad a number to two digits (`%d`, `%m` of `strftime`). -/
def pad2 (n : Nat) : String :=
  if n < 10 then "0" ++ toString n else toString n

/-- Zero-pad a number to four digits (`%Y` of `strftime` as documented). -/
def pad4 (n : Nat) : String :=
  if n < 10 then "000" ++ toString n
  else if n < 100 then "00" ++ toString n
  else if n < 1000 then "0" ++ toString n
  else toString n

/-- `date.strftime("%d.%m.%Y")`. -/
def formatDMY (d : Date) : String :=
  pad2 d.day ++ "." ++ pad2 d.month ++ "." ++ pad4 d.year

/-- `datetime.date(y, m, d)` / `date.replace`: validates ranges and raises
`ValueError` (here `none`) on an invalid combination, e.g. Feb 29 of a
non-leap year or a year outside 1..9999. -/
def replaceYMD (y m d : Nat) : Option Date :=
  if 1 ≤ y ∧ y ≤ 9999 ∧ 1 ≤ m ∧ m ≤ 12 ∧ 1 ≤ d ∧ d ≤ daysInMonth y m then
    some ⟨y, m, d⟩
  else none

/-! ## Parsing `"%d.%m.%Y"` (`datetime.strptime` as `_strptime` implements it)

`_strptime` compiles the format to the regex
`(3[01]|[12]\d|0[1-9]|[1-9]| [1-9])\.(1[0-2]|0[1-9]|[1-9])\.(\d\d\d\d)`
anchored over the whole input, then builds `datetime(year, month, day)`,
which re-validates the day against the month and year (leap years) and
requires `1 <= year`.  Since no alternative contains a dot, matching is
equivalent to splitting the input at the dots and matching each of the
three resulting segments wholly against its group. -/

/-- Numeric value of a digit character. -/
def digVal (c : Char) : Nat := c.toNat - 48

/-- Split a character list at every dot; `n` dots give `n+1` segments. -/
def splitDots : List Char → List (List Char)
  | [] => [[]]
  | c :: cs =>
    if c = '.' then [] :: splitDots cs
    else
      match splitDots cs with
      | [] => [[c]]
      | g :: gs => (c :: g) :: gs

/-- The `%d` group: `3[01]|[12]\d|0[1-9]|[1-9]| [1-9]`, i.e. a two-digit
number 01..31, a single nonzero digit, or a space-padded nonzero digit. -/
def dayTok : List Char → Option Nat
  | [c] => if c.isDigit ∧ c ≠ '0' then some (digVal c) else none
  | [c1, c2] =>
    if c1 = ' ' then
      (if c2.isDigit ∧ c2 ≠ '0' then some (digVal c2) else none)
    else if c1.isDigit ∧ c2.isDigit ∧ 1 ≤ 10 * digVal c1 + digVal c2 ∧
        10 * digVal c1 + digVal c2 ≤ 31 then
      some (10 * digVal c1 + digVal c2)
    else none
  | _ => none

/-- The `%m` group: `1[0-2]|0[1-9]|[1-9]`, i.e. a two-digit number 01..12
or a single nonzero digit. -/
def monthTok : List Char → Option Nat
  | [c] => if c.isDigit ∧ c ≠ '0' then some (digVal c) else none
  | [c1, c2] =>
    if c1.isDigit ∧ c2.isDigit ∧ 1 ≤ 10 * digVal c1 + digVal c2 ∧
        10 * digVal c1 + digVal c2 ≤ 12 then
      some (10 * digVal c1 + digVal c2)
    else none
  | _ => none

/-- The `%Y` group: exactly four digits. -/
def yearTok : List Char → Option Nat
  | [a, b, c, d] =>
    if a.isDigit ∧ b.isDigit ∧ c.isDigit ∧ d.isDigit then
      some (1000 * digVal a + 100 * digVal b + 10 * digVal c + digVal d)
    else none
  | _ => none

/-- `datetime.strptime(s, "%d.%m.%Y")`, `none` for the `ValueError` cases:
regex match of the three groups, then `datetime` construction, which
checks `1 <= year` and that the day exists in that month of that year. -/
def strptimeDMY (s : String) : Option Date :=
  match splitDots s.data with
  | [ds, ms, ys] =>
    match dayTok ds, monthTok ms, yearTok ys with
    | some d, some m, some y =>
      if 1 ≤ y ∧ d ≤ daysInMonth y m then some ⟨y, m, d⟩ else none
    | _, _, _ => none
  | _ => none

/-! ## Field validators (`Phone.__init__`, `Birthday.__init__`) -/

/-- Message of the `ValueError` raised by `Phone.__init__`. -/
def invalidPhoneMsg : String := "Phone number must be exactly 10 digits."

/-- Message of the `ValueError` raised by `Birthday.__init__`. -/
def invalidDateMsg : String := "Invalid date format. Use DD.MM.YYYY"

/-- `value.isdigit()` for ASCII text: nonempty and all characters digits. -/
def pyIsDigit (s : String) : Bool :=
  !s.data.isEmpty && s.data.all Char.isDigit

/-- The check of `Phone.__init__`:
`not value.isdigit() or len(value) != 10` raises. -/
def validPhone (s : String) : Bool :=
  pyIsDigit s && s.length == 10

/-- `Phone(value)`: the validated raw string, or the `ValueError`. -/
def makePhone (s : String) : Except PyErr String :=
  if validPhone s then .ok s else .error (.valueError invalidPhoneMsg)

/-- `Birthday(value)`: `strptime` is run only to validate; the original
string is stored as the value. -/
def makeBirthday (s : String) : Except PyErr String :=
  if (strptimeDMY s).isSome then .ok s else .error (.valueError invalidDateMsg)

/-- `Field.__str__`: `str(self.value)`, the stored string itself. -/
def fieldStr (value : String) : String := value

/-! ## Records (`Record`) -/

/-- A contact: one name, an ordered list of validated phone strings
(each one a `Phone.value`), and at most one validated birthday string. -/
structure Record where
  name : String
  phones : List String
  birthday : Option String
deriving DecidableEq, Repr

/-- Index of the first element of the list equal to `t`
(the `for ... if p.value == t` scans in `remove_phone` / `edit_phone`). -/
def firstIdx (t : String) : List String → Option Nat
  | [] => none
  | x :: xs => if x = t then some 0 else (firstIdx t xs).map (· + 1)

/-- `Record.add_phone`: `Phone(phone)` is constructed first, so a failed
validation raises before the append and leaves the list untouched. -/
def Record.add_phone (r : Record) (phone : String) : Except PyErr Unit × Record :=
  match makePhone phone with
  | .error e => (.error e, r)
  | .ok p => (.ok (), { r with phones := r.phones ++ [p] })

/-- `Record.remove_phone`: removes the first phone whose value equals
`phone` (distinct `Phone` objects, so `list.remove` hits exactly it),
or raises `ValueError` when none matches. -/
def Record.remove_phone (r : Record) (phone : String) : Except PyErr Unit × Record :=
  match firstIdx phone r.phones with
  | some i => (.ok (), { r with phones := r.phones.eraseIdx i })
  | none => (.error (.valueError ("Phone " ++ phone ++ " not found.")), r)

/-- `Record.edit_phone`: finds the first phone equal to `old`; then
`Phone(new_phone)` is constructed before the assignment, so an invalid
`new` raises with the list untouched; a valid one replaces in place. -/
def Record.edit_phone (r : Record) (old new : String) : Except PyErr Unit × Record :=
  match firstIdx old r.phones with
  | some i =>
    match makePhone new with
    | .error e => (.error e, r)
    | .ok p => (.ok (), { r with phones := r.phones.set i p })
  | none => (.error (.valueError ("Phone " ++ old ++ " not found.")), r)

/-- `Record.add_birthday`: validates, then overwrites the birthday. -/
def Record.add_birthday (r : Record) (birthday : String) : Except PyErr Unit × Record :=
  match makeBirthday birthday with
  | .error e => (.error e, r)
  | .ok v => (.ok (), { r with birthday := some v })

/-! ## The address book (`AddressBook`, a `UserDict` keyed by name) -/

/-- `dict.get`: the value at the first (only) occurrence of the key. -/
def findAL (l : List (String × Record)) (n : String) : Option Record :=
  match l with
  | [] => none
  | (k, v) :: t => if k = n then some v else findAL t n

/-- `dict.__setitem__`: overwrite in place when the key is present
(its position is kept), append otherwise. -/
def insertAL (l : List (String × Record)) (k : String) (v : Record) :
    List (String × Record) :=
  match l with
  | [] => [(k, v)]
  | (k', v') :: t => if k' = k then (k, v) :: t else (k', v') :: insertAL t k v

/-- `AddressBook`: `self.data`, a name-keyed insertion-ordered mapping. -/
structure AddressBook where
  data : List (String × Record)
deriving DecidableEq, Repr

/-- `AddressBook.find`: `self.data.get(name)`. -/
def AddressBook.find (b : AddressBook) (n : String) : Option Record :=
  findAL b.data n

/-- `AddressBook.add_record`: `self.data[record.name.value] = record`. -/
def AddressBook.add_record (b : AddressBook) (r : Record) : AddressBook :=
  ⟨insertAL b.data r.name r⟩

/-- `self.data.values()` in iteration (insertion) order. -/
def AddressBook.records (b : AddressBook) : List Record :=
  b.data.map Prod.snd

/-! ## Upcoming birthdays (`AddressBook.get_upcoming_birthdays`)

The Python method reads `today = datetime.today().date()`; the embedding
takes that date as the parameter `today`. -/

/-- One emitted dictionary `{"name": ..., "birthday": ...}`. -/
structure Entry where
  name : String
  birthday : String
deriving DecidableEq, Repr

/-- Lines 87-90: substitute this year into the birthday, advance one year
when the result is strictly before `today`; `none` when `date.replace`
raises (Feb 29 substituted into a non-leap year). -/
def adjustedBirthday (today : Date) (bd : Date) : Option Date :=
  match replaceYMD today.year bd.month bd.day with
  | none => none
  | some bty =>
    if dateLT bty today then replaceYMD (today.year + 1) bd.month bd.day
    else some bty

/-- Lines 93-97: shift a Saturday congratulation date by 2 days and a
Sunday one by 1 day, onto the following Monday. -/
def shiftWeekend (d : Date) : Date :=
  if weekday d = 5 then addDays d 2
  else if weekday d = 6 then addDays d 1
  else d

/-- The loop body for one record: `some none` when the record is skipped,
`some (some e)` when it appends `e`, `none` when an exception escapes. -/
def processRecord (today : Date) (r : Record) : Option (Option Entry) :=
  match r.birthday with
  | none => some none
  | some bs =>
    match strptimeDMY bs with
    | none => none
    | some bd =>
      match adjustedBirthday today bd with
      | none => none
      | some bty =>
        if dateLE today bty && dateLE bty (addDays today 7) then
          some (some ⟨r.name, formatDMY (shiftWeekend bty)⟩)
        else some none

/-- The loop over `self.data.values()`, accumulating `upcoming` in order;
an exception in any iteration aborts the whole call. -/
def upcomingGo (today : Date) : List Record → Option (List Entry)
  | [] => some []
  | r :: rs =>
    match processRecord today r with
    | none => none
    | some none => upcomingGo today rs
    | some (some e) => (upcomingGo today rs).map (e :: ·)

/-- `AddressBook.get_upcoming_birthdays`, with `datetime.today().date()`
passed in as `today`; `none` models the escaping `ValueError`. -/
def AddressBook.get_upcoming_birthdays (b : AddressBook) (today : Date) :
    Option (List Entry) :=
  upcomingGo today b.records

/-! ## Command handlers (`input_error`, `add_contact`, `change_contact`) -/

/-- The message `input_error` turns each caught exception into. -/
def renderErr : PyErr → String
  | .valueError m => "Value error: " ++ m
  | .keyError _ => "Contact not found."
  | .indexError => "Enter user name and phone."
  | .attributeError _ => "Contact not found."

/-- CPython's message for unpacking an oversized sequence into 3 names. -/
def unpackMsg : String := "too many values to unpack (expected 3)"

/-- `add_contact(command_parts, book)` under `@input_error`: returns the
printed string and the resulting book state.  With exactly three tokens,
`_, name, phone = command_parts` unpacks; a fresh record is inserted into
the book before `add_phone` runs, so a phone validation failure leaves the
freshly inserted empty record behind. -/
def add_contact (parts : List String) (book : AddressBook) :
    String × AddressBook :=
  if parts.length < 3 then (renderErr .indexError, book)
  else
    match parts with
    | [_, name, phone] =>
      match book.find name with
      | some r =>
        match r.add_phone phone with
        | (.ok _, r') => ("Contact added.", ⟨insertAL book.data name r'⟩)
        | (.error e, _) => (renderErr e, book)
      | none =>
        let r0 : Record := ⟨name, [], none⟩
        let book1 := book.add_record r0
        match r0.add_phone phone with
        | (.ok _, r') => ("Contact added.", ⟨insertAL book1.data name r'⟩)
        | (.error e, _) => (renderErr e, book1)
    | _ => (renderErr (.valueError unpackMsg), book)

/-- `change_contact(command_parts, book)` under `@input_error`: fewer than
four tokens raise `IndexError`; otherwise `name, old_phone, new_phone =
command_parts` unpacks the whole token list into three names, which fails
for any length other than three — so the edit branch below the unpacking
is unreachable (it is kept here as the faithful image of lines 140-143). -/
def change_contact (parts : List String) (book : AddressBook) :
    String × AddressBook :=
  if parts.length < 4 then (renderErr .indexError, book)
  else
    match parts with
    | [name, old, new] =>
      match book.find name with
      | none => (renderErr (.attributeError "edit_phone"), book)
      | some r =>
        match r.edit_phone old new with
        | (.ok _, r') => ("Contact changed.", ⟨insertAL book.data name r'⟩)
        | (.error e, _) => (renderErr e, book)
    | _ => (renderErr (.valueError unpackMsg), book)

example : makeBirthday "29.02.2024" = .ok "29.02.2024" := by rfl
example : makeBirthday "29.02.2023" = .error (.valueError invalidDateMsg) := by rfl
example : makeBirthday "7.3.2025" = .ok "7.3.2025" := by rfl
example : makeBirthday "07.03.2025" = .ok "07.03.2025" := by rfl
example : makeBirthday "32.01.2025" = .error (.valueError invalidDateMsg) := by rfl
example : makeBirthday "10.03.25" = .error (.valueError invalidDateMsg) := by rfl
example : strptimeDMY " 9.12.2024" = some ⟨2024, 12, 9⟩ := by decide
example : makePhone "0123456789" = .ok "0123456789" := by rfl
example : makePhone "012345678" = .error (.valueError invalidPhoneMsg) := by rfl
example : weekday ⟨2025, 3, 8⟩ = 5 := by decide
example : weekday ⟨2025, 3, 10⟩ = 0 := by decide
example : addDays ⟨2025, 3, 5⟩ 7 = ⟨2025, 3, 12⟩ := by decide
example : formatDMY ⟨2025, 3, 8⟩ = "08.03.2025" := by rfl

/-! ## Helper lemmas -/

lemma validPhone_iff (s : String) :
    validPhone s = true ↔ (s.length = 10 ∧ ∀ c ∈ s.data, c.isDigit = true) := by
  unfold validPhone pyIsDigit
  simp only [Bool.and_eq_true, Bool.not_eq_true', List.all_eq_true, beq_iff_eq,
    String.length]
  constructor
  · rintro ⟨⟨_, hall⟩, hlen⟩
    exact ⟨hlen, hall⟩
  · rintro ⟨hlen, hall⟩
    refine ⟨⟨?_, hall⟩, hlen⟩
    cases hd : s.data with
    | nil => rw [hd] at hlen; simp at hlen
    | cons a l => simp [hd]

lemma firstIdx_none_iff (t : String) (l : List String) :
    firstIdx t l = none ↔ t ∉ l := by
  induction l with
  | nil => simp [firstIdx]
  | cons x xs ih =>
    by_cases hx : x = t
    · simp [firstIdx, hx]
    · simp only [firstIdx, hx, if_false, Option.map_eq_none', ih,
        List.mem_cons]
      constructor
      · intro hnot hor
        rcases hor with h | h
        · exact hx h.symm
        · exact hnot h
      · intro hnot h
        exact hnot (Or.inr h)

lemma firstIdx_some_of_mem (t : String) (l : List String) (h : t ∈ l) :
    ∃ i, firstIdx t l = some i := by
  cases hf : firstIdx t l with
  | none => exact absurd h ((firstIdx_none_iff t l).mp hf)
  | some i => exact ⟨i, rfl⟩

lemma firstIdx_some_spec (t : String) (l : List String) (i : Nat)
    (h : firstIdx t l = some i) :
    l.get? i = some t ∧ ∀ j, j < i → l.get? j ≠ some t := by
  induction l generalizing i with
  | nil => simp [firstIdx] at h
  | cons x xs ih =>
    by_cases hx : x = t
    · simp only [firstIdx, hx, if_true, Option.some.injEq] at h
      subst h
      exact ⟨by simp [hx], by intro j hj; omega⟩
    · simp only [firstIdx, hx, if_false, Option.map_eq_some'] at h
      obtain ⟨i', hi', rfl⟩ := h
      obtain ⟨h1, h2⟩ := ih i' hi'
      refine ⟨by simpa using h1, ?_⟩
      intro j hj
      cases j with
      | zero => simpa using hx
      | succ j' =>
        intro hc
        exact h2 j' (by omega) (by simpa using hc)

lemma findAL_insertAL_self (l : List (String × Record)) (k : String) (v : Record) :
    findAL (insertAL l k v) k = some v := by
  induction l with
  | nil => simp [insertAL, findAL]
  | cons p t ih =>
    by_cases hk : p.1 = k
    · simp [insertAL, hk, findAL]
    · simp [insertAL, hk, findAL, ih]

lemma findAL_insertAL_ne (l : List (String × Record)) (k : String) (v : Record)
    (n : String) (h : n ≠ k) :
    findAL (insertAL l k v) n = findAL l n := by
  induction l with
  | nil => simp [insertAL, findAL, Ne.symm h]
  | cons p t ih =>
    by_cases hk : p.1 = k
    · simp [insertAL, findAL, hk, Ne.symm h]
    · by_cases hn : p.1 = n
      · simp [insertAL, findAL, hk, hn, h]
      · simp [insertAL, findAL, hk, hn, ih]

/-! ## C3: phone validation -/

/-- C3: phone construction succeeds exactly on strings of ten decimal
digits, any other string is rejected with the `InvalidPhone` error, and an
accepted string displays back as itself. -/
theorem phone_validation_spec (s : String) :
    ((s.length = 10 ∧ ∀ c ∈ s.data, c.isDigit = true) →
      makePhone s = Except.ok s ∧ fieldStr s = s) ∧
    (¬ (s.length = 10 ∧ ∀ c ∈ s.data, c.isDigit = true) →
      makePhone s = Except.error (PyErr.valueError invalidPhoneMsg)) := by
  constructor
  · intro h
    have hv : validPhone s = true := (validPhone_iff s).mpr h
    exact ⟨by simp [makePhone, hv], rfl⟩
  · intro h
    have hv : validPhone s = false := by
      cases hb : validPhone s with
      | false => rfl
      | true => exact absurd ((validPhone_iff s).mp hb) h
    simp [makePhone, hv]

/-! ## C5: edit_phone -/

/-- C5: with the first phone equal to `old` present, an invalid `new`
fails with `InvalidPhone` and leaves the record untouched; a valid `new`
replaces the first matching phone in place; with no match the call fails
with the not-found `ValueError`. -/
theorem edit_phone_spec (r : Record) (old new : String) :
    (old ∈ r.phones → validPhone new = false →
      r.edit_phone old new = (Except.error (PyErr.valueError invalidPhoneMsg), r)) ∧
    (old ∈ r.phones → validPhone new = true →
      ∃ i, firstIdx old r.phones = some i ∧
        r.phones.get? i = some old ∧
        (∀ j, j < i → r.phones.get? j ≠ some old) ∧
        r.edit_phone old new = (Except.ok (), { r with phones := r.phones.set i new })) ∧
    (old ∉ r.phones →
      r.edit_phone old new =
        (Except.error (PyErr.valueError ("Phone " ++ old ++ " not found.")), r)) := by
  refine ⟨?_, ?_, ?_⟩
  · intro hmem hinv
    obtain ⟨i, hi⟩ := firstIdx_some_of_mem old r.phones hmem
    simp [Record.edit_phone, hi, makePhone, hinv]
  · intro hmem hval
    obtain ⟨i, hi⟩ := firstIdx_some_of_mem old r.phones hmem
    obtain ⟨h1, h2⟩ := firstIdx_some_spec old r.phones i hi
    exact ⟨i, hi, h1, h2, by simp [Record.edit_phone, hi, makePhone, hval]⟩
  · intro hmem
    have hi : firstIdx old r.phones = none := (firstIdx_none_iff old r.phones).mpr hmem
    simp [Record.edit_phone, hi]

/-! ## C6: remove_phone -/

/-- C6: `remove_phone` removes exactly the first phone equal to the raw
string; on an absent value it fails with the not-found `ValueError` and
the record is unchanged. -/
theorem remove_phone_spec (r : Record) (phone : String) :
    (phone ∈ r.phones →
      ∃ i, firstIdx phone r.phones = some i ∧
        r.phones.get? i = some phone ∧
        (∀ j, j < i → r.phones.get? j ≠ some phone) ∧
        r.remove_phone phone = (Except.ok (), { r with phones := r.phones.eraseIdx i })) ∧
    (phone ∉ r.phones →
      r.remove_phone phone =
        (Except.error (PyErr.valueError ("Phone " ++ phone ++ " not found.")), r)) := by
  constructor
  · intro hmem
    obtain ⟨i, hi⟩ := firstIdx_some_of_mem phone r.phones hmem
    obtain ⟨h1, h2⟩ := firstIdx_some_spec phone r.phones i hi
    exact ⟨i, hi, h1, h2, by simp [Record.remove_phone, hi]⟩
  · intro hmem
    have hi : firstIdx phone r.phones = none := (firstIdx_none_iff phone r.phones).mpr hmem
    simp [Record.remove_phone, hi]

/-! ## C7: add_record then find -/

/-- C7: adding a record and looking up its name returns that very record
(so its name equals the input name); the insertion is keyed by the
record's name and leaves every other key's binding unchanged. -/
theorem add_record_find_spec (book : AddressBook) (r : Record) :
    (book.add_record r).find r.name = some r ∧
    ((book.add_record r).find r.name).map Record.name = some r.name ∧
    (∀ n, n ≠ r.name → (book.add_record r).find n = book.find n) := by
  have h1 : (book.add_record r).find r.name = some r :=
    findAL_insertAL_self book.data r.name r
  refine ⟨h1, by rw [h1]; rfl, ?_⟩
  intro n hn
  exact findAL_insertAL_ne book.data r.name r n hn

/-! ## C8: change_contact can never change anything -/

/-- C8: `change_contact` returns the book unchanged and never the success
message: fewer than four tokens raise `IndexError` ("Enter user name and
phone."), and with four or more the three-name unpacking of the whole
token list always raises `ValueError`, so no edit is ever performed. -/
theorem change_contact_never_changes (parts : List String) (book : AddressBook) :
    (change_contact parts book).2 = book ∧
    (change_contact parts book).1 ≠ "Contact changed." ∧
    (parts.length < 4 → (change_contact parts book).1 = "Enter user name and phone.") ∧
    (4 ≤ parts.length → (change_contact parts book).1 = "Value error: " ++ unpackMsg) := by
  rcases parts with _ | ⟨a, _ | ⟨b, _ | ⟨c, _ | ⟨d, rest⟩⟩⟩⟩
  · exact ⟨rfl, by show "Enter user name and phone." ≠ _; decide,
      fun _ => rfl, fun hc => by simp at hc⟩
  · exact ⟨rfl, by show "Enter user name and phone." ≠ _; decide,
      fun _ => rfl, fun hc => by simp at hc⟩
  · exact ⟨rfl, by show "Enter user name and phone." ≠ _; decide,
      fun _ => rfl, fun hc => by simp at hc⟩
  · exact ⟨rfl, by show "Enter user name and phone." ≠ _; decide,
      fun _ => rfl, fun hc => by simp at hc⟩
  · have hlen : ¬ (a :: b :: c :: d :: rest).length < 4 := by
      simp only [List.length_cons]
      omega
    have h : change_contact (a :: b :: c :: d :: rest) book =
        ("Value error: " ++ unpackMsg, book) := by
      unfold change_contact
      rw [if_neg hlen]
      rfl
    refine ⟨by rw [h], ?_, fun hc => absurd hc hlen, fun _ => by rw [h]⟩
    rw [h]
    show "Value error: " ++ unpackMsg ≠ _
    decide

/-! ## C9: add_contact mutates the book even when the phone is invalid -/

/-- C9: for a name absent from the book, `add add <name> <phone>` with an
invalid phone reports the phone `ValueError` yet leaves a fresh record
with that name and an empty phone list inserted in the book: the record
is inserted before the phone is validated, so the failure is not atomic. -/
theorem add_contact_partial_insert (book : AddressBook) (name phone : String)
    (h1 : book.find name = none) (h2 : validPhone phone = false) :
    add_contact ["add", name, phone] book =
      ("Value error: " ++ invalidPhoneMsg,
        ⟨insertAL book.data name ⟨name, [], none⟩⟩) ∧
    (add_contact ["add", name, phone] book).2.find name =
      some ⟨name, [], none⟩ ∧
    (add_contact ["add", name, phone] book).1 ≠ "Contact added." := by
  have hrun : add_contact ["add", name, phone] book =
      ("Value error: " ++ invalidPhoneMsg,
        ⟨insertAL book.data name ⟨name, [], none⟩⟩) := by
    simp [add_contact, h1, Record.add_phone, makePhone, h2, AddressBook.add_record,
      renderErr]
  refine ⟨hrun, ?_, ?_⟩
  · rw [hrun]
    exact findAL_insertAL_self book.data name ⟨name, [], none⟩
  · rw [hrun]
    show "Value error: " ++ invalidPhoneMsg ≠ _
    decide

/-- C9 at a concrete input: the empty book, the absent name `Alice` and
the invalid phone `12`. -/
theorem add_contact_partial_insert_witness :
    add_contact ["add", "Alice", "12"] ⟨[]⟩ =
      ("Value error: " ++ invalidPhoneMsg,
        ⟨insertAL [] "Alice" ⟨"Alice", [], none⟩⟩) ∧
    (add_contact ["add", "Alice", "12"] ⟨[]⟩).2.find "Alice" =
      some ⟨"Alice", [], none⟩ ∧
    (add_contact ["add", "Alice", "12"] ⟨[]⟩).1 ≠ "Contact added." :=
  add_contact_partial_insert ⟨[]⟩ "Alice" "12" rfl rfl

/-! ## Lemmas on the upcoming-birthdays loop -/

lemma upcomingGo_err (today : Date) (r : Record) (rs : List Record)
    (hr : r ∈ rs) (he : processRecord today r = none) :
    upcomingGo today rs = none := by
  induction rs with
  | nil => cases hr
  | cons x xs ih =>
    rcases List.mem_cons.mp hr with rfl | hmem
    · simp [upcomingGo, he]
    · cases hx : processRecord today x with
      | none => simp [upcomingGo, hx]
      | some o =>
        cases o with
        | none => simpa [upcomingGo, hx] using ih hmem
        | some e => simp [upcomingGo, hx, ih hmem]

lemma upcomingGo_not_none (today : Date) (rs : List Record) (l : List Entry)
    (h : upcomingGo today rs = some l) (r : Record) (hr : r ∈ rs) :
    processRecord today r ≠ none := by
  intro he
  rw [upcomingGo_err today r rs hr he] at h
  cases h

lemma upcomingGo_mem_emit (today : Date) (rs : List Record) (l : List Entry)
    (h : upcomingGo today rs = some l) (r : Record) (hr : r ∈ rs)
    (e : Entry) (he : processRecord today r = some (some e)) :
    e ∈ l := by
  induction rs generalizing l with
  | nil => cases hr
  | cons x xs ih =>
    rcases List.mem_cons.mp hr with rfl | hmem
    · simp only [upcomingGo, he] at h
      cases hg : upcomingGo today xs with
      | none => rw [hg] at h; simp at h
      | some l' =>
        rw [hg] at h
        simp only [Option.map_some'] at h
        cases h
        exact List.mem_cons_self _ _
    · cases hx : processRecord today x with
      | none => simp only [upcomingGo, hx] at h; cases h
      | some o =>
        cases o with
        | none =>
          simp only [upcomingGo, hx] at h
          exact ih _ h hmem
        | some e' =>
          simp only [upcomingGo, hx] at h
          cases hg : upcomingGo today xs with
          | none => rw [hg] at h; simp at h
          | some l' =>
            rw [hg] at h
            simp only [Option.map_some'] at h
            cases h
            exact List.mem_cons_of_mem e' (ih _ hg hmem)

lemma upcomingGo_emit_mem (today : Date) (rs : List Record) (l : List Entry)
    (h : upcomingGo today rs = some l) (e : Entry) (he : e ∈ l) :
    ∃ r, r ∈ rs ∧ processRecord today r = some (some e) := by
  induction rs generalizing l with
  | nil =>
    simp only [upcomingGo, Option.some.injEq] at h
    subst h
    cases he
  | cons x xs ih =>
    cases hx : processRecord today x with
    | none => simp only [upcomingGo, hx] at h; cases h
    | some o =>
      cases o with
      | none =>
        simp only [upcomingGo, hx] at h
        obtain ⟨r, hr, hemit⟩ := ih _ h he
        exact ⟨r, List.mem_cons_of_mem x hr, hemit⟩
      | some e' =>
        simp only [upcomingGo, hx] at h
        cases hg : upcomingGo today xs with
        | none => rw [hg] at h; simp at h
        | some l' =>
          rw [hg] at h
          simp only [Option.map_some'] at h
          cases h
          rcases List.mem_cons.mp he with rfl | hmem
          · exact ⟨x, List.mem_cons_self x xs, hx⟩
          · obtain ⟨r, hr, hemit⟩ := ih _ hg hmem
            exact ⟨r, List.mem_cons_of_mem x hr, hemit⟩

lemma replaceYMD_shape (y m d : Nat) (D : Date) (h : replaceYMD y m d = some D) :
    D = ⟨y, m, d⟩ := by
  unfold replaceYMD at h
  split at h
  · cases h; rfl
  · cases h

lemma adjustedBirthday_shape (today bd B : Date)
    (h : adjustedBirthday today bd = some B) :
    B.month = bd.month ∧ B.day = bd.day ∧
    ((dateLT ⟨today.year, bd.month, bd.day⟩ today = true ∧ B.year = today.year + 1) ∨
     (dateLT ⟨today.year, bd.month, bd.day⟩ today = false ∧ B.year = today.year)) := by
  cases h1 : replaceYMD today.year bd.month bd.day with
  | none =>
    simp only [adjustedBirthday, h1] at h
    cases h
  | some bty =>
    simp only [adjustedBirthday, h1] at h
    have hb : bty = ⟨today.year, bd.month, bd.day⟩ := replaceYMD_shape _ _ _ _ h1
    subst hb
    by_cases hlt : dateLT ⟨today.year, bd.month, bd.day⟩ today = true
    · rw [if_pos hlt] at h
      have hB := replaceYMD_shape _ _ _ _ h
      subst hB
      exact ⟨rfl, rfl, Or.inl ⟨hlt, rfl⟩⟩
    · rw [if_neg hlt] at h
      cases h
      have hf : dateLT ⟨today.year, bd.month, bd.day⟩ today = false := by
        revert hlt
        cases dateLT ⟨today.year, bd.month, bd.day⟩ today <;> simp
      exact ⟨rfl, rfl, Or.inr ⟨hf, rfl⟩⟩

/-! ## C1: inclusion in the 7-day window -/

/-- C1: when the query returns a list, every record with a parsed birthday
yields an adjusted date `B` carrying the birthday's month and day with the
reference year substituted (advanced one year exactly when the substituted
date is strictly before the reference date), and the record contributes an
entry to the result if and only if `B` lies in the inclusive window from
the reference date to the reference date plus 7 days. -/
theorem upcoming_window_iff (today : Date) (book : AddressBook) (l : List Entry)
    (h : book.get_upcoming_birthdays today = some l)
    (r : Record) (hr : r ∈ book.records) (bs : String) (bd : Date)
    (hb : r.birthday = some bs) (hp : strptimeDMY bs = some bd) :
    ∃ B, adjustedBirthday today bd = some B ∧
      B.month = bd.month ∧ B.day = bd.day ∧
      ((dateLT ⟨today.year, bd.month, bd.day⟩ today = true ∧ B.year = today.year + 1) ∨
       (dateLT ⟨today.year, bd.month, bd.day⟩ today = false ∧ B.year = today.year)) ∧
      ((∃ e, processRecord today r = some (some e) ∧ e ∈ l) ↔
        (dateLE today B && dateLE B (addDays today 7)) = true) := by
  have hne := upcomingGo_not_none today book.records l h r hr
  cases ha : adjustedBirthday today bd with
  | none => exact absurd (by simp [processRecord, hb, hp, ha]) hne
  | some B =>
    obtain ⟨hm, hd, hy⟩ := adjustedBirthday_shape today bd B ha
    refine ⟨B, rfl, hm, hd, hy, ?_, ?_⟩
    · rintro ⟨e, hemit, _⟩
      by_contra hw
      have hw' : (dateLE today B && dateLE B (addDays today 7)) = false := by
        revert hw
        cases dateLE today B && dateLE B (addDays today 7) <;> simp
      simp [processRecord, hb, hp, ha, hw'] at hemit
    · intro hw
      refine ⟨⟨r.name, formatDMY (shiftWeekend B)⟩, ?_, ?_⟩
      · simp [processRecord, hb, hp, ha, hw]
      · refine upcomingGo_mem_emit today book.records l h r hr _ ?_
        simp [processRecord, hb, hp, ha, hw]

/-- C1 at a concrete input: Alice, birthday `10.03.2025`, reference date
2025-03-05 (the spec's own scenario); the window test succeeds. -/
theorem upcoming_window_iff_witness :
    ∃ B, adjustedBirthday ⟨2025, 3, 5⟩ ⟨2025, 3, 10⟩ = some B ∧
      B.month = 3 ∧ B.day = 10 ∧
      ((dateLT ⟨2025, 3, 10⟩ ⟨2025, 3, 5⟩ = true ∧ B.year = 2026) ∨
       (dateLT ⟨2025, 3, 10⟩ ⟨2025, 3, 5⟩ = false ∧ B.year = 2025)) ∧
      ((∃ e, processRecord ⟨2025, 3, 5⟩ ⟨"Alice", [], some "10.03.2025"⟩ =
          some (some e) ∧ e ∈ [Entry.mk "Alice" "10.03.2025"]) ↔
        (dateLE ⟨2025, 3, 5⟩ B && dateLE B (addDays ⟨2025, 3, 5⟩ 7)) = true) :=
  upcoming_window_iff ⟨2025, 3, 5⟩
    ⟨[("Alice", ⟨"Alice", [], some "10.03.2025"⟩)]⟩
    [Entry.mk "Alice" "10.03.2025"] rfl
    ⟨"Alice", [], some "10.03.2025"⟩ (by decide)
    "10.03.2025" ⟨2025, 3, 10⟩ rfl rfl

/-! ## C2: the emitted congratulation date -/

/-- C2: every emitted entry comes from a record whose in-window adjusted
birthday `B` is shifted forward 2 days when `B` is a Saturday (weekday 5),
1 day when a Sunday (weekday 6), and not at all otherwise, and the entry's
date is that shifted date formatted as `DD.MM.YYYY`. -/
theorem congrat_date_shift (today : Date) (book : AddressBook) (l : List Entry)
    (h : book.get_upcoming_birthdays today = some l) (e : Entry) (he : e ∈ l) :
    ∃ r, r ∈ book.records ∧ e.name = r.name ∧
      ∃ bs bd B, r.birthday = some bs ∧ strptimeDMY bs = some bd ∧
        adjustedBirthday today bd = some B ∧
        (dateLE today B && dateLE B (addDays today 7)) = true ∧
        e.birthday = formatDMY
          (if weekday B = 5 then addDays B 2
           else if weekday B = 6 then addDays B 1
           else B) := by
  obtain ⟨r, hr, hemit⟩ := upcomingGo_emit_mem today book.records l h e he
  cases hb : r.birthday with
  | none => simp [processRecord, hb] at hemit
  | some bs =>
    cases hp : strptimeDMY bs with
    | none => simp [processRecord, hb, hp] at hemit
    | some bd =>
      cases ha : adjustedBirthday today bd with
      | none => simp [processRecord, hb, hp, ha] at hemit
      | some B =>
        simp only [processRecord, hb, hp, ha] at hemit
        by_cases hw : (dateLE today B && dateLE B (addDays today 7)) = true
        · rw [if_pos hw] at hemit
          simp only [Option.some.injEq] at hemit
          have he' : Entry.mk r.name (formatDMY (shiftWeekend B)) = e := hemit
          subst he'
          exact ⟨r, hr, rfl, bs, bd, B, hb, hp, ha, hw, rfl⟩
        · rw [if_neg hw] at hemit
          simp at hemit

/-- C2 at a concrete input: Bob's adjusted birthday 2025-03-08 is a
Saturday, so the emitted congratulation date is Monday 10.03.2025. -/
theorem congrat_date_shift_witness :
    ∃ r, r ∈ AddressBook.records ⟨[("Bob", ⟨"Bob", [], some "08.03.2025"⟩)]⟩ ∧
      Entry.name ⟨"Bob", "10.03.2025"⟩ = r.name ∧
      ∃ bs bd B, r.birthday = some bs ∧ strptimeDMY bs = some bd ∧
        adjustedBirthday ⟨2025, 3, 5⟩ bd = some B ∧
        (dateLE ⟨2025, 3, 5⟩ B && dateLE B (addDays ⟨2025, 3, 5⟩ 7)) = true ∧
        Entry.birthday ⟨"Bob", "10.03.2025"⟩ = formatDMY
          (if weekday B = 5 then addDays B 2
           else if weekday B = 6 then addDays B 1
           else B) :=
  congrat_date_shift ⟨2025, 3, 5⟩ ⟨[("Bob", ⟨"Bob", [], some "08.03.2025"⟩)]⟩
    [Entry.mk "Bob" "10.03.2025"] rfl ⟨"Bob", "10.03.2025"⟩ (by decide)

/-! ## C10: Feb 29 birthdays crash the query in a non-leap reference year -/

/-- C10: a record whose stored birthday parses to Feb 29 of a leap year
makes the whole query fail (the year substitution raises `ValueError`)
whenever the reference year is not a leap year; no result list — and so
no clamping to Feb 28 or rolling to Mar 1 — is produced. -/
theorem feb29_crash (today : Date) (book : AddressBook) (r : Record)
    (bs : String) (y : Nat) (hr : r ∈ book.records) (hb : r.birthday = some bs)
    (hp : strptimeDMY bs = some ⟨y, 2, 29⟩) (hleap : isLeap y = true)
    (hnl : isLeap today.year = false) :
    book.get_upcoming_birthdays today = none := by
  refine upcomingGo_err today r book.records hr ?_
  have hrep : replaceYMD today.year 2 29 = none := by
    unfold replaceYMD
    rw [if_neg]
    intro hc
    have h29 : (29 : Nat) ≤ daysInMonth today.year 2 := hc.2.2.2.2.2
    rw [daysInMonth] at h29
    simp [hnl] at h29
  simp [processRecord, hb, hp, adjustedBirthday, hrep]

/-- C10 at a concrete input: Carol's birthday `29.02.2024` against the
non-leap reference year 2025. -/
theorem feb29_crash_witness :
    AddressBook.get_upcoming_birthdays
      ⟨[("Carol", ⟨"Carol", [], some "29.02.2024"⟩)]⟩ ⟨2025, 1, 10⟩ = none :=
  feb29_crash ⟨2025, 1, 10⟩ ⟨[("Carol", ⟨"Carol", [], some "29.02.2024"⟩)]⟩
    ⟨"Carol", [], some "29.02.2024"⟩ "29.02.2024" 2024 (by decide) rfl
    (by decide) (by decide) (by decide)

/-! ## C4: accepted birthday formats

The claim reads `strptime(value, "%d.%m.%Y")` as accepting exactly the
strings with a two-digit day, two-digit month and four-digit year.  The
`%d` and `%m` groups, however, also match one-digit (and, for `%d`,
space-padded) fields, so e.g. `7.3.2025` is accepted. -/

/-- The claim's acceptance set, written from the spec's words: exactly
`DD.MM.YYYY` with a two-digit day, two-digit month and four-digit year
forming a valid Gregorian date. -/
def specDDMMYYYY (s : String) : Bool :=
  match s.data with
  | [d1, d2, '.', m1, m2, '.', y1, y2, y3, y4] =>
    d1.isDigit && d2.isDigit && m1.isDigit && m2.isDigit &&
    y1.isDigit && y2.isDigit && y3.isDigit && y4.isDigit &&
    (let d := 10 * digVal d1 + digVal d2
     let m := 10 * digVal m1 + digVal m2
     let y := 1000 * digVal y1 + 100 * digVal y2 + 10 * digVal y3 + digVal y4
     decide (1 ≤ y) && decide (1 ≤ m) && decide (m ≤ 12) &&
     decide (1 ≤ d) && decide (d ≤ daysInMonth y m))
  | _ => false

/-- C4 fails as stated: `7.3.2025` is not of the claimed `DD.MM.YYYY`
shape, yet birthday construction accepts it. -/
theorem birthday_strict_format_counterexample :
    makeBirthday "7.3.2025" = Except.ok "7.3.2025" ∧
    specDDMMYYYY "7.3.2025" = false :=
  ⟨rfl, rfl⟩

/-- Amended day field: a one- or two-digit number 1..31, a single digit
optionally space-padded. -/
def dayFieldR (cs : List Char) (d : Nat) : Prop :=
  (∃ c, cs = [c] ∧ c.isDigit = true ∧ c ≠ '0' ∧ d = digVal c) ∨
  (∃ c, cs = [' ', c] ∧ c.isDigit = true ∧ c ≠ '0' ∧ d = digVal c) ∨
  (∃ c1 c2, cs = [c1, c2] ∧ c1.isDigit = true ∧ c2.isDigit = true ∧
    d = 10 * digVal c1 + digVal c2 ∧ 1 ≤ d ∧ d ≤ 31)

/-- Amended month field: a one- or two-digit number 1..12. -/
def monthFieldR (cs : List Char) (m : Nat) : Prop :=
  (∃ c, cs = [c] ∧ c.isDigit = true ∧ c ≠ '0' ∧ m = digVal c) ∨
  (∃ c1 c2, cs = [c1, c2] ∧ c1.isDigit = true ∧ c2.isDigit = true ∧
    m = 10 * digVal c1 + digVal c2 ∧ 1 ≤ m ∧ m ≤ 12)

/-- Amended year field: exactly four digits. -/
def yearFieldR (cs : List Char) (y : Nat) : Prop :=
  ∃ a b c d, cs = [a, b, c, d] ∧ a.isDigit = true ∧ b.isDigit = true ∧
    c.isDigit = true ∧ d.isDigit = true ∧
    y = 1000 * digVal a + 100 * digVal b + 10 * digVal c + digVal d

/-- The amended acceptance set: the string splits at the dots into
exactly a day field, a month field and a four-digit year field, the year
is at least 1 and the day exists in that month of that year. -/
def flexDMY (s : String) : Prop :=
  ∃ ds ms ys d m y, splitDots s.data = [ds, ms, ys] ∧
    dayFieldR ds d ∧ monthFieldR ms m ∧ yearFieldR ys y ∧
    1 ≤ y ∧ d ≤ daysInMonth y m

lemma dayTok_iff (cs : List Char) (d : Nat) :
    dayTok cs = some d ↔ dayFieldR cs d := by
  rcases cs with _ | ⟨c1, _ | ⟨c2, _ | ⟨c3, rest⟩⟩⟩
  · simp [dayTok, dayFieldR]
  · simp only [dayTok]
    split
    · rename_i hc
      simp only [Option.some.injEq]
      constructor
      · intro hd
        exact Or.inl ⟨c1, rfl, hc.1, hc.2, hd.symm⟩
      · rintro (⟨c, hcs, hdig, hz, hd⟩ | ⟨c, hcs, hdig, hz, hd⟩ |
          ⟨a, b, hcs, h⟩)
        · simp only [List.cons.injEq, and_true] at hcs
          subst hcs
          exact hd.symm
        · simp at hcs
        · simp at hcs
    · rename_i hc
      constructor
      · intro h
        cases h
      · rintro (⟨c, hcs, hdig, hz, hd⟩ | ⟨c, hcs, hdig, hz, hd⟩ |
          ⟨a, b, hcs, h⟩)
        · simp only [List.cons.injEq, and_true] at hcs
          subst hcs
          exact absurd ⟨hdig, hz⟩ hc
        · simp at hcs
        · simp at hcs
  · simp only [dayTok]
    split
    · rename_i hsp
      subst hsp
      split
      · rename_i hc
        simp only [Option.some.injEq]
        constructor
        · intro hd
          exact Or.inr (Or.inl ⟨c2, rfl, hc.1, hc.2, hd.symm⟩)
        · rintro (⟨c, hcs, hdig, hz, hd⟩ | ⟨c, hcs, hdig, hz, hd⟩ |
            ⟨a, b, hcs, hda, hdb, hv, h1, h31⟩)
          · simp at hcs
          · simp only [List.cons.injEq, true_and, and_true] at hcs
            subst hcs
            exact hd.symm
          · simp only [List.cons.injEq, and_true] at hcs
            obtain ⟨ha, hb⟩ := hcs
            rw [← ha] at hda
            exact absurd hda (by decide)
      · rename_i hc
        constructor
        · intro h
          cases h
        · rintro (⟨c, hcs, hdig, hz, hd⟩ | ⟨c, hcs, hdig, hz, hd⟩ |
            ⟨a, b, hcs, hda, hdb, hv, h1, h31⟩)
          · simp at hcs
          · simp only [List.cons.injEq, true_and, and_true] at hcs
            subst hcs
            exact absurd ⟨hdig, hz⟩ hc
          · simp only [List.cons.injEq, and_true] at hcs
            obtain ⟨ha, hb⟩ := hcs
            rw [← ha] at hda
            exact absurd hda (by decide)
    · rename_i hsp
      split
      · rename_i hc
        simp only [Option.some.injEq]
        constructor
        · intro hd
          subst hd
          exact Or.inr (Or.inr ⟨c1, c2, rfl, hc.1, hc.2.1, rfl,
            hc.2.2.1, hc.2.2.2⟩)
        · rintro (⟨c, hcs, hdig, hz, hd⟩ | ⟨c, hcs, hdig, hz, hd⟩ |
            ⟨a, b, hcs, hda, hdb, hv, h1, h31⟩)
          · simp at hcs
          · simp only [List.cons.injEq, and_true] at hcs
            exact absurd hcs.1 hsp
          · simp only [List.cons.injEq, and_true] at hcs
            obtain ⟨ha, hb⟩ := hcs
            subst ha
            subst hb
            exact hv.symm
      · rename_i hc
        constructor
        · intro h
          cases h
        · rintro (⟨c, hcs, hdig, hz, hd⟩ | ⟨c, hcs, hdig, hz, hd⟩ |
            ⟨a, b, hcs, hda, hdb, hv, h1, h31⟩)
          · simp at hcs
          · simp only [List.cons.injEq, and_true] at hcs
            exact absurd hcs.1 hsp
          · simp only [List.cons.injEq, and_true] at hcs
            obtain ⟨ha, hb⟩ := hcs
            subst ha
            subst hb
            exact absurd ⟨hda, hdb, hv ▸ h1, hv ▸ h31⟩ hc
  · have hnone : dayTok (c1 :: c2 :: c3 :: rest) = none := rfl
    rw [hnone]
    simp [dayFieldR]

lemma monthTok_iff (cs : List Char) (m : Nat) :
    monthTok cs = some m ↔ monthFieldR cs m := by
  rcases cs with _ | ⟨c1, _ | ⟨c2, _ | ⟨c3, rest⟩⟩⟩
  · simp [monthTok, monthFieldR]
  · simp only [monthTok]
    split
    · rename_i hc
      simp only [Option.some.injEq]
      constructor
      · intro hm
        exact Or.inl ⟨c1, rfl, hc.1, hc.2, hm.symm⟩
      · rintro (⟨c, hcs, hdig, hz, hm⟩ | ⟨a, b, hcs, h⟩)
        · simp only [List.cons.injEq, and_true] at hcs
          subst hcs
          exact hm.symm
        · simp at hcs
    · rename_i hc
      constructor
      · intro h
        cases h
      · rintro (⟨c, hcs, hdig, hz, hm⟩ | ⟨a, b, hcs, h⟩)
        · simp only [List.cons.injEq, and_true] at hcs
          subst hcs
          exact absurd ⟨hdig, hz⟩ hc
        · simp at hcs
  · simp only [monthTok]
    split
    · rename_i hc
      simp only [Option.some.injEq]
      constructor
      · intro hm
        subst hm
        exact Or.inr ⟨c1, c2, rfl, hc.1, hc.2.1, rfl, hc.2.2.1, hc.2.2.2⟩
      · rintro (⟨c, hcs, hdig, hz, hm⟩ | ⟨a, b, hcs, hda, hdb, hv, h1, h12⟩)
        · simp at hcs
        · simp only [List.cons.injEq, and_true] at hcs
          obtain ⟨ha, hb⟩ := hcs
          subst ha
          subst hb
          exact hv.symm
    · rename_i hc
      constructor
      · intro h
        cases h
      · rintro (⟨c, hcs, hdig, hz, hm⟩ | ⟨a, b, hcs, hda, hdb, hv, h1, h12⟩)
        · simp at hcs
        · simp only [List.cons.injEq, and_true] at hcs
          obtain ⟨ha, hb⟩ := hcs
          subst ha
          subst hb
          exact absurd ⟨hda, hdb, hv ▸ h1, hv ▸ h12⟩ hc
  · have hnone : monthTok (c1 :: c2 :: c3 :: rest) = none := rfl
    rw [hnone]
    simp [monthFieldR]

lemma yearTok_iff (cs : List Char) (y : Nat) :
    yearTok cs = some y ↔ yearFieldR cs y := by
  rcases cs with _ | ⟨a, _ | ⟨b, _ | ⟨c, _ | ⟨d, _ | ⟨e, rest⟩⟩⟩⟩⟩
  · simp [yearTok, yearFieldR]
  · simp [yearTok, yearFieldR]
  · simp [yearTok, yearFieldR]
  · simp [yearTok, yearFieldR]
  · simp only [yearTok]
    split
    · rename_i hc
      simp only [Option.some.injEq]
      constructor
      · intro hy
        exact ⟨a, b, c, d, rfl, hc.1, hc.2.1, hc.2.2.1, hc.2.2.2, hy.symm⟩
      · rintro ⟨a', b', c', d', hcs, hda, hdb, hdc, hdd, hv⟩
        simp only [List.cons.injEq, and_true] at hcs
        obtain ⟨ha, hb, hcc, hd⟩ := hcs
        subst ha
        subst hb
        subst hcc
        subst hd
        exact hv.symm
    · rename_i hc
      constructor
      · intro h
        cases h
      · rintro ⟨a', b', c', d', hcs, hda, hdb, hdc, hdd, hv⟩
        simp only [List.cons.injEq, and_true] at hcs
        obtain ⟨ha, hb, hcc, hd⟩ := hcs
        subst ha
        subst hb
        subst hcc
        subst hd
        exact absurd ⟨hda, hdb, hdc, hdd⟩ hc
  · have hnone : yearTok (a :: b :: c :: d :: e :: rest) = none := rfl
    rw [hnone]
    simp [yearFieldR]

lemma strptimeDMY_iff_flex (s : String) :
    (∃ dt, strptimeDMY s = some dt) ↔ flexDMY s := by
  rcases hsp : splitDots s.data with _ | ⟨ds, _ | ⟨ms, _ | ⟨ys, _ | ⟨zs, more⟩⟩⟩⟩
  · constructor
    · rintro ⟨dt, hdt⟩
      simp only [strptimeDMY, hsp] at hdt
      cases hdt
    · rintro ⟨ds', ms', ys', d, m, y, hsp', _⟩
      rw [hsp] at hsp'
      simp at hsp'
  · constructor
    · rintro ⟨dt, hdt⟩
      simp only [strptimeDMY, hsp] at hdt
      cases hdt
    · rintro ⟨ds', ms', ys', d, m, y, hsp', _⟩
      rw [hsp] at hsp'
      simp at hsp'
  · constructor
    · rintro ⟨dt, hdt⟩
      simp only [strptimeDMY, hsp] at hdt
      cases hdt
    · rintro ⟨ds', ms', ys', d, m, y, hsp', _⟩
      rw [hsp] at hsp'
      simp at hsp'
  · constructor
    · rintro ⟨dt, hdt⟩
      simp only [strptimeDMY, hsp] at hdt
      cases hd : dayTok ds with
      | none =>
        simp only [hd] at hdt
        cases hdt
      | some d =>
        cases hm : monthTok ms with
        | none =>
          simp only [hd, hm] at hdt
          cases hdt
        | some m =>
          cases hy : yearTok ys with
          | none =>
            simp only [hd, hm, hy] at hdt
            cases hdt
          | some y =>
            simp only [hd, hm, hy] at hdt
            split at hdt
            · rename_i hv
              exact ⟨ds, ms, ys, d, m, y, hsp, (dayTok_iff ds d).mp hd,
                (monthTok_iff ms m).mp hm, (yearTok_iff ys y).mp hy,
                hv.1, hv.2⟩
            · cases hdt
    · rintro ⟨ds', ms', ys', d, m, y, hsp', hday, hmon, hyr, hy1, hdm⟩
      rw [hsp] at hsp'
      simp only [List.cons.injEq, and_true] at hsp'
      obtain ⟨h1, h2, h3⟩ := hsp'
      subst h1
      subst h2
      subst h3
      refine ⟨⟨y, m, d⟩, ?_⟩
      simp only [strptimeDMY, hsp, (dayTok_iff ds d).mpr hday,
        (monthTok_iff ms m).mpr hmon, (yearTok_iff ys y).mpr hyr]
      rw [if_pos ⟨hy1, hdm⟩]
  · constructor
    · rintro ⟨dt, hdt⟩
      simp only [strptimeDMY, hsp] at hdt
      cases hdt
    · rintro ⟨ds', ms', ys', d, m, y, hsp', _⟩
      rw [hsp] at hsp'
      simp at hsp'

/-- C4 (amended): birthday construction succeeds exactly on the strings
whose dot-separated fields are a one- or two-digit day 1..31 (a single
digit optionally space-padded), a one- or two-digit month 1..12 and a
four-digit year at least 0001, with the day valid for that month of that
year (Gregorian rules, leap years included); the accepted string itself
is stored, and every other string is rejected with the `InvalidDate`
error. -/
theorem birthday_flexible_format (s : String) :
    (makeBirthday s = Except.ok s ↔ flexDMY s) ∧
    (¬ flexDMY s →
      makeBirthday s = Except.error (PyErr.valueError invalidDateMsg)) := by
  have hiff := strptimeDMY_iff_flex s
  constructor
  · constructor
    · intro h
      cases hd : strptimeDMY s with
      | none => simp [makeBirthday, hd] at h
      | some dt => exact hiff.mp ⟨dt, hd⟩
    · intro hf
      obtain ⟨dt, hdt⟩ := hiff.mpr hf
      simp [makeBirthday, hdt]
  · intro hnf
    cases hd : strptimeDMY s with
    | none => simp [makeBirthday, hd]
    | some dt => exact absurd (hiff.mp ⟨dt, hd⟩) hnf
